import Mathlib

/-!
Shallow embedding of the AppDemo demo-recording core: the timeline
scheduler of `packages/recording/src/recorder.ts`, the audio alignment,
caption segmentation and stream merge of
`packages/rendering/src/compositor.ts`, over the data model of
`@appdemo/types`.  Times are in milliseconds; the scheduler's virtual
clock is a natural number, caption cue boundaries are rationals (the
source divides a section window by a chunk count with JS real division).
-/

namespace AppDemo

/-- `ActionType` from `@appdemo/types`. -/
inductive ActionType where
  | click
  | scroll
  | hover
  | typeText
  | wait
  | navigate
deriving DecidableEq, Repr

/-- `HighlightStyle` from `@appdemo/types`. -/
inductive HighlightStyle where
  | arrow
  | spotlight
  | box
  | zoom
  | none
deriving DecidableEq, Repr

/-- `ScriptAction` from `@appdemo/types`.  `timing` is the action's offset
in ms relative to its section start (`timingOffsetMs`). -/
structure ScriptAction where
  type : ActionType
  selector : Option String
  value : Option String
  timing : ℕ
  highlightStyle : HighlightStyle
  highlightDuration : Option ℕ
  highlightLabel : Option String
deriving DecidableEq, Repr

/-- `ScriptSection` from `@appdemo/types`; `duration` is the nominal
section duration in seconds. -/
structure ScriptSection where
  id : String
  name : String
  narration : String
  duration : ℕ
  actions : List ScriptAction
deriving DecidableEq, Repr

/-- `DemoScript` from `@appdemo/types` (the `versions` field, unused by
the scheduler and compositor, is omitted). -/
structure DemoScript where
  title : String
  targetAudience : String
  totalDuration : ℕ
  sections : List ScriptSection
deriving DecidableEq, Repr

/-- `SectionTiming` from `@appdemo/types`: one recorded timing window. -/
structure SectionTiming where
  id : String
  startTime : ℕ
  endTime : ℕ
  narration : String
deriving DecidableEq, Repr

instance : Inhabited SectionTiming := ⟨⟨"", 0, 0, ""⟩⟩

/-- `TimingMetadata` from `@appdemo/types`: the scheduler's output. -/
structure TimingMetadata where
  sections : List SectionTiming
  totalDuration : ℕ
deriving DecidableEq, Repr

/-- JS truthiness of an optional string: `undefined` and `""` are falsy. -/
def strTruthy : Option String → Bool
  | Option.none => false
  | some s => s != ""

/-- `getOverlayMethod` from `overlay-system.ts`: maps a highlight style to
the injected overlay method name, `""` for `none`. -/
def getOverlayMethod : HighlightStyle → String
  | .arrow => "drawArrow"
  | .spotlight => "spotlight"
  | .box => "highlightBox"
  | .zoom => "zoom"
  | .none => ""

/-- `action.highlightDuration || 1000` (recorder.ts line 180): JS `||`
treats a provided `0` as falsy, so it still falls back to `1000`. -/
def actionDuration (a : ScriptAction) : ℕ :=
  match a.highlightDuration with
  | some d => if d = 0 then 1000 else d
  | Option.none => 1000

/-- `action.highlightDuration || 2000` (recorder.ts line 212), the overlay
call duration. -/
def overlayDuration (a : ScriptAction) : ℕ :=
  match a.highlightDuration with
  | some d => if d = 0 then 2000 else d
  | Option.none => 2000

/-- One overlay invocation as passed to `page.evaluate` in
`executeOverlay` (recorder.ts 220-228). -/
structure OverlayCall where
  method : String
  selector : String
  duration : ℕ
  label : Option String
deriving DecidableEq, Repr

/-- Outcome oracle for the live document: whether the overlay
`page.evaluate` and the action's interaction throw at a given action
step.  It models the nondeterministic environment the recorder runs
against (selectors that match nothing, navigation failures, closed
pages). -/
structure Env where
  overlayFails : ℕ → Bool
  actionFails : ℕ → Bool

/-- The overlay `page.evaluate` call, which may throw. -/
def attemptOverlay (env : Env) (stepIdx : ℕ) : Except String Unit :=
  if env.overlayFails stepIdx then Except.error "page.evaluate failed"
  else Except.ok ()

/-- The body of one action's interaction with the page, which may throw. -/
def attemptAction (env : Env) (stepIdx : ℕ) : Except String Unit :=
  if env.actionFails stepIdx then Except.error "interaction failed"
  else Except.ok ()

/-- `executeOverlay` (recorder.ts 208-232): computes the method and the
call options, guards `!method || !action.selector`, issues the call, and
catches any error with a warning log. -/
def executeOverlay (env : Env) (stepIdx : ℕ) (a : ScriptAction) :
    List OverlayCall × List String :=
  let method := getOverlayMethod a.highlightStyle
  if method = "" ∨ strTruthy a.selector = false then ([], [])
  else
    let call : OverlayCall :=
      { method := method
        selector := a.selector.getD ""
        duration := overlayDuration a
        label :=
          match a.highlightLabel with
          | some l => if l = "" then Option.none else some l
          | Option.none => Option.none }
    match attemptOverlay env stepIdx with
    | .ok _ => ([call], [])
    | .error e => ([call], ["[Recorder] Overlay error: " ++ e])

/-- `executeAction` (recorder.ts 234-301): every failure of the
interaction is caught and logged with a warning; nothing propagates. -/
def executeAction (env : Env) (stepIdx : ℕ) (_a : ScriptAction) :
    List String :=
  match attemptAction env stepIdx with
  | .ok _ => []
  | .error e => ["[Recorder] Action failed: " ++ e]

/-- Result of one iteration of the scheduler's action loop. -/
structure StepRes where
  overlays : List OverlayCall
  logs : List String
  lastActionEnd : ℕ
  currentTime : ℕ
deriving Repr

/-- One iteration of the action loop (recorder.ts 164-183): optional
overlay, the action itself, then the bookkeeping update
`lastActionEnd = sectionStart + action.timing + (highlightDuration || 1000)`,
`currentTime = max(currentTime, lastActionEnd)`.  The pacing sleep at
lines 166-169 consumes wall-clock only and touches no bookkeeping. -/
def actionStep (env : Env) (stepIdx sectionStart cur : ℕ) (a : ScriptAction) :
    StepRes :=
  let ov :=
    if a.highlightStyle ≠ HighlightStyle.none ∧ strTruthy a.selector = true then
      executeOverlay env stepIdx a
    else ([], [])
  let alogs := executeAction env stepIdx a
  let lastEnd := sectionStart + a.timing + actionDuration a
  { overlays := ov.1
    logs := ov.2 ++ alogs
    lastActionEnd := lastEnd
    currentTime := max cur lastEnd }

/-- Accumulated result of running a list of actions. -/
structure ActRes where
  stepIdx : ℕ
  currentTime : ℕ
  overlays : List OverlayCall
  logs : List String
deriving Repr

/-- The scheduler's action loop over one section (recorder.ts 164-183). -/
def runActions (env : Env) (sectionStart : ℕ) :
    List ScriptAction → ℕ → ℕ → ActRes
  | [], stepIdx, cur => ⟨stepIdx, cur, [], []⟩
  | a :: rest, stepIdx, cur =>
    let r := actionStep env stepIdx sectionStart cur a
    let rr := runActions env sectionStart rest (stepIdx + 1) r.currentTime
    ⟨rr.stepIdx, rr.currentTime, r.overlays ++ rr.overlays, r.logs ++ rr.logs⟩

/-- Accumulated result of running a list of sections. -/
structure SecRes where
  sections : List SectionTiming
  stepIdx : ℕ
  currentTime : ℕ
  overlays : List OverlayCall
  logs : List String
deriving Repr

/-- The scheduler's section loop (recorder.ts 158-200): run the actions
from `sectionStart = currentTime`, then raise `currentTime` to the
nominal floor `sectionStart + duration * 1000` if it is below it, and
record the section's timing window. -/
def runSections (env : Env) : List ScriptSection → ℕ → ℕ → SecRes
  | [], stepIdx, cur => ⟨[], stepIdx, cur, [], []⟩
  | s :: rest, stepIdx, cur =>
    let sectionStart := cur
    let ar := runActions env sectionStart s.actions stepIdx sectionStart
    let minSectionEnd := sectionStart + s.duration * 1000
    let cur' := if ar.currentTime < minSectionEnd then minSectionEnd else ar.currentTime
    let st : SectionTiming :=
      { id := s.id, startTime := sectionStart, endTime := cur', narration := s.narration }
    let sr := runSections env rest ar.stepIdx cur'
    ⟨st :: sr.sections, sr.stepIdx, sr.currentTime, ar.overlays ++ sr.overlays,
      ar.logs ++ sr.logs⟩

/-- `executeScript` (recorder.ts 154-206): the scheduler.  Returns the
timing metadata together with the overlay calls issued and the warning
log; with every per-step failure caught inside `executeOverlay` /
`executeAction`, the function is total. -/
def executeScript (env : Env) (script : DemoScript) :
    TimingMetadata × List OverlayCall × List String :=
  let sr := runSections env script.sections 0 0
  (⟨sr.sections, sr.currentTime⟩, sr.overlays, sr.logs)

/-- JS `String.prototype.split(" ")` over the character list: split on
every single space; `"".split(" ")` is `[""]` and adjacent separators
yield empty pieces. -/
def splitOnSpace : List Char → List (List Char)
  | [] => [[]]
  | c :: cs =>
    match splitOnSpace cs with
    | [] => [[]]
    | w :: ws => if c = ' ' then [] :: w :: ws else (c :: w) :: ws

/-- `narration.split(" ")` (compositor.ts line 339). -/
def jsSplitSpace (s : String) : List String :=
  (splitOnSpace s.data).map fun w => String.mk w

/-- JS `String.prototype.trim`, over the character list. -/
def jsTrim (s : String) : String :=
  String.mk (((s.data.dropWhile Char.isWhitespace).reverse.dropWhile
    Char.isWhitespace).reverse)

/-- JS `Array.prototype.join(" ")` (compositor.ts line 344). -/
def joinSpace : List String → String
  | [] => ""
  | [w] => w
  | w :: v :: rest => w ++ " " ++ joinSpace (v :: rest)

/-- The chunking loop of `generateSubtitles` (compositor.ts 341-345):
group the word list into chunks of 12, the last chunk possibly shorter. -/
def chunkList : List String → List (List String)
  | [] => []
  | w :: rest =>
    (w :: rest).take 12 :: chunkList ((w :: rest).drop 12)
termination_by ws => ws.length
decreasing_by
  simp only [List.length_drop, List.length_cons]
  omega

/-- One SRT cue as assembled by `generateSubtitles` (compositor.ts
349-357): 1-based global index, chunk window, chunk text. -/
structure CaptionCue where
  index : ℕ
  startTime : ℚ
  endTime : ℚ
  text : String
deriving DecidableEq, Repr

instance : Inhabited CaptionCue := ⟨⟨0, 0, 0, ""⟩⟩

/-- The inner loop of `generateSubtitles` (compositor.ts 338-357) for one
section: split the narration into words on `" "`, group into chunks of
12, divide the section window evenly by the chunk count
(`chunkDuration = (endTime - startTime) / chunks.length`, JS real
division, modelled in ℚ), and emit one cue per chunk with consecutive
indices from `idx`. -/
def sectionCues (idx : ℕ) (st : SectionTiming) (sec : ScriptSection) :
    List CaptionCue :=
  let words := jsSplitSpace sec.narration
  let chunks := (chunkList words).map joinSpace
  let chunkDur : ℚ := ((st.endTime : ℚ) - (st.startTime : ℚ)) / (chunks.length : ℚ)
  (List.range chunks.length).map fun (i : ℕ) =>
    let chunkStart : ℚ := (st.startTime : ℚ) + (i : ℚ) * chunkDur
    { index := idx + i
      startTime := chunkStart
      endTime := chunkStart + chunkDur
      text := chunks.getD i "" }

/-- The outer loop of `generateSubtitles` (compositor.ts 329-358): walk
the timing sections, skip a timing entry with no matching script section
(`find` by id) or with empty narration (JS `!narration`), and thread the
running global cue index. -/
def subtitleCues (script : DemoScript) :
    List SectionTiming → ℕ → List CaptionCue
  | [], _ => []
  | st :: rest, idx =>
    match script.sections.find? (fun s => s.id == st.id) with
    | Option.none => subtitleCues script rest idx
    | some sec =>
      if sec.narration = "" then subtitleCues script rest idx
      else
        let cs := sectionCues idx st sec
        cs ++ subtitleCues script rest (idx + cs.length)

/-- `generateSubtitles` (compositor.ts 321-364), as the cue sequence it
writes; the global index starts at 1. -/
def generateSubtitles (script : DemoScript) (timing : TimingMetadata) :
    List CaptionCue :=
  subtitleCues script timing.sections 1

/-- Result of the `ffprobe` call in `getAudioDuration`: the probe either
errors or reports the container format's optional `duration` (seconds). -/
inductive ProbeResult where
  | fail
  | ok (duration : Option ℚ)
deriving DecidableEq, Repr

/-- `getAudioDuration` (compositor.ts 176-188): `5000` on probe failure,
else `(metadata.format.duration || 5) * 1000` — JS `||`, so an absent or
zero reported duration also yields the 5-second default. -/
def getAudioDuration : ProbeResult → ℚ
  | .fail => 5000
  | .ok d =>
    (match d with
     | Option.none => (5 : ℚ)
     | some x => if x = 0 then 5 else x) * 1000

/-- `AudioSegment` (compositor.ts 49-53). -/
structure AudioSegment where
  sectionId : String
  audioPath : String
  duration : ℚ
deriving DecidableEq, Repr

/-- Outcome oracle for narration synthesis: whether the text-to-speech
call (or the file write) for a section id throws, and what the `ffprobe`
of the written clip reports. -/
structure SynthEnv where
  synthFails : String → Bool
  probe : String → ProbeResult

/-- The body of `generateNarration`'s loop (compositor.ts 131-171) for
one section: skip when the narration is absent/empty or trims to empty
(`!section.narration || section.narration.trim() === ""`), catch
synthesis failures (dropping that section's audio), otherwise emit a
segment whose duration comes from probing the written clip. -/
def narrationSegment (env : SynthEnv) (sec : ScriptSection) :
    Option AudioSegment :=
  if sec.narration = "" ∨ jsTrim sec.narration = "" then Option.none
  else if env.synthFails sec.id then Option.none
  else some
    { sectionId := sec.id
      audioPath := "audio/narration-" ++ sec.id ++ ".mp3"
      duration := getAudioDuration (env.probe sec.id) }

/-- `generateNarration` (compositor.ts 122-174). -/
def generateNarration (env : SynthEnv) (script : DemoScript) :
    List AudioSegment :=
  script.sections.filterMap (narrationSegment env)

/-- The combined audio artifact produced by `combineAudio`, abstracted
from the encoder: a silent track of a given duration
(`createSilentAudio`), a byte-for-byte copy of a single segment's clip
(`fs.copyFileSync`), or a mix of delayed clips, each clip delayed by its
section's start time (`adelay` + `amix=duration=longest`). -/
inductive AudioTrack where
  | silent (durationMs : ℕ)
  | copied (segment : AudioSegment)
  | mixed (entries : List (AudioSegment × ℕ))
deriving DecidableEq, Repr

/-- Failure oracle for the external encoder / filesystem steps of
`combineAudio`: whether the `amix` command, the silent-track synthesis,
or the single-segment file copy fail. -/
structure MixEnv where
  mixFails : Bool
  silentFails : Bool
  copyFails : Bool
deriving DecidableEq, Repr

/-- `createSilentAudio` (compositor.ts 265-279): resolves with a silent
track of the requested duration, or rejects when the encoder fails. -/
def createSilentAudio (env : MixEnv) (durationMs : ℕ) :
    Except String AudioTrack :=
  if env.silentFails then Except.error "silent synthesis failed"
  else Except.ok (AudioTrack.silent durationMs)

/-- The per-segment `adelay` filter construction of `combineAudio`
(compositor.ts 222-230): a segment whose `sectionId` matches no
`SectionTiming` is dropped (with a warning); a retained one is delayed
by its section's `startTime`. -/
def mixEntries (segments : List AudioSegment) (timing : TimingMetadata) :
    List (AudioSegment × ℕ) :=
  segments.filterMap fun seg =>
    (timing.sections.find? (fun s => s.id == seg.sectionId)).map fun st =>
      (seg, st.startTime)

/-- `combineAudio` (compositor.ts 190-263).  Zero segments: silent track
of `timing.totalDuration` (line 197-202).  One segment: direct file copy
of the clip, ignoring the timing metadata (line 204-208).  Two or more:
drop unmatched segments, fall back to the silent track when none remain
(line 232-238) or when the mix errors (line 254-260); each fallback
itself rejects if the silent synthesis fails (`.catch(reject)`). -/
def combineAudio (env : MixEnv) (segments : List AudioSegment)
    (timing : TimingMetadata) : Except String AudioTrack :=
  match segments with
  | [] => createSilentAudio env timing.totalDuration
  | [seg] =>
    if env.copyFails then Except.error "copy failed"
    else Except.ok (AudioTrack.copied seg)
  | _ :: _ :: _ =>
    let entries := mixEntries segments timing
    if entries.isEmpty then createSilentAudio env timing.totalDuration
    else if env.mixFails then createSilentAudio env timing.totalDuration
    else Except.ok (AudioTrack.mixed entries)

/-- Duration of the combined track: the requested duration for silence,
the clip's own duration for the single-copy path, and the longest
delayed-and-padded stream for the mix (`amix=duration=longest`). -/
def trackDuration : AudioTrack → ℚ
  | .silent d => (d : ℚ)
  | .copied seg => seg.duration
  | .mixed entries => (entries.map fun e => (e.2 : ℚ) + e.1.duration).foldr max 0

/-- A media stream abstracted to its path and duration (ms). -/
structure VideoStream where
  path : String
  duration : ℚ
deriving DecidableEq, Repr

/-- Failure oracle for the final merge encoder. -/
structure MergeEnv where
  mergeFails : Bool
deriving DecidableEq, Repr

/-- The ffmpeg output options passed by `compositeVideo`
(compositor.ts 292-299). -/
def compositeOutputOptions : List String :=
  ["-c:v", "libx264", "-preset", "fast", "-crf", "22",
   "-c:a", "aac", "-b:a", "192k", "-shortest"]

/-- Modelled from the spec: the external encoder merging a video and an
audio stream, which the repository delegates to ffmpeg.  With
`-shortest` among the output options the output duration is bounded by
the shorter input (§4.6: the merge does not pad or loop either stream);
otherwise ffmpeg pads to the longer input. -/
def encodeMerged (opts : List String) (raw audio : VideoStream)
    (outputPath : String) : VideoStream :=
  if "-shortest" ∈ opts then ⟨outputPath, min raw.duration audio.duration⟩
  else ⟨outputPath, max raw.duration audio.duration⟩

/-- `compositeVideo` (compositor.ts 281-319): on encoder failure the
promise rejects (`.on("error", reject)`) with no fallback; on success it
resolves with the merged output. -/
def compositeVideo (env : MergeEnv) (raw audio : VideoStream) :
    Except String VideoStream :=
  if env.mergeFails then Except.error "Composite error"
  else Except.ok (encodeMerged compositeOutputOptions raw audio "final.mp4")

instance : Inhabited ScriptSection := ⟨⟨"", "", "", 0, []⟩⟩

/-!  ## Scheduler lemmas  -/

/-- The recorded sections form a gap-free chain from a start clock to the
final clock: each section starts where the run clock stood, never ends
before that, and hands its end time to the next section. -/
def TimingChain : ℕ → List SectionTiming → ℕ → Prop
  | c, [], f => f = c
  | c, st :: sts, f => st.startTime = c ∧ c ≤ st.endTime ∧ TimingChain st.endTime sts f

/-- How one recorded section relates to its script section: same id and
narration, the nominal floor is respected, and with no actions the floor
is hit exactly. -/
def SectionFits (sec : ScriptSection) (st : SectionTiming) : Prop :=
  st.id = sec.id ∧ st.narration = sec.narration ∧
  st.startTime + sec.duration * 1000 ≤ st.endTime ∧
  (sec.actions = [] → st.endTime = st.startTime + sec.duration * 1000)

theorem actionStep_lastActionEnd (env : Env) (i ss cur : ℕ) (a : ScriptAction) :
    (actionStep env i ss cur a).lastActionEnd = ss + a.timing + actionDuration a := rfl

theorem actionStep_currentTime (env : Env) (i ss cur : ℕ) (a : ScriptAction) :
    (actionStep env i ss cur a).currentTime = max cur (ss + a.timing + actionDuration a) := rfl

/-- The scheduler's virtual clock after a list of actions does not depend
on the environment's step outcomes, nor on the step counter. -/
theorem runActions_currentTime (env₁ env₂ : Env) (ss : ℕ)
    (as : List ScriptAction) (i₁ i₂ cur : ℕ) :
    (runActions env₁ ss as i₁ cur).currentTime
      = (runActions env₂ ss as i₂ cur).currentTime := by
  induction as generalizing i₁ i₂ cur with
  | nil => rfl
  | cons a rest ih =>
    simp only [runActions, actionStep_currentTime]
    exact ih (i₁ + 1) (i₂ + 1) _

/-- The virtual clock never decreases across an action list. -/
theorem runActions_le (env : Env) (ss : ℕ) (as : List ScriptAction)
    (i cur : ℕ) : cur ≤ (runActions env ss as i cur).currentTime := by
  induction as generalizing i cur with
  | nil => exact le_refl _
  | cons a rest ih =>
    simp only [runActions]
    exact le_trans (le_max_left _ _) (ih (i + 1) _)

/-- Main structural lemma about the section loop: the recorded sections
chain the clock from `cur` to the final clock, and each recorded section
fits its script section. -/
theorem runSections_spec (env : Env) (secs : List ScriptSection) (i cur : ℕ) :
    TimingChain cur (runSections env secs i cur).sections
        (runSections env secs i cur).currentTime
    ∧ List.Forall₂ SectionFits secs (runSections env secs i cur).sections := by
  induction secs generalizing i cur with
  | nil => exact ⟨rfl, List.Forall₂.nil⟩
  | cons s rest ih =>
    simp only [runSections]
    set ar := runActions env cur s.actions i cur with har
    set cur' := if ar.currentTime < cur + s.duration * 1000
      then cur + s.duration * 1000 else ar.currentTime with hcur'
    have hle : cur ≤ cur' := by
      rw [hcur']
      split
      · omega
      · exact runActions_le env cur s.actions i cur
    have hfloor : cur + s.duration * 1000 ≤ cur' := by
      rw [hcur']; split <;> omega
    have hempty : s.actions = [] → cur' = cur + s.duration * 1000 := by
      intro h
      have : ar.currentTime = cur := by rw [har, h]; rfl
      rw [hcur', this]; split <;> omega
    obtain ⟨hchain, hfits⟩ := ih ar.stepIdx cur'
    refine ⟨⟨rfl, hle, hchain⟩, List.Forall₂.cons ⟨rfl, rfl, hfloor, hempty⟩ hfits⟩

/-- `TimingChain` gives `startTime ≤ endTime` for every element. -/
theorem timingChain_le {c f : ℕ} {sts : List SectionTiming}
    (h : TimingChain c sts f) : ∀ st ∈ sts, st.startTime ≤ st.endTime := by
  induction sts generalizing c with
  | nil => intro st hst; cases hst
  | cons s rest ih =>
    obtain ⟨hs, hle, htail⟩ := h
    intro st hst
    rcases List.mem_cons.mp hst with hst | hst
    · subst hst; omega
    · exact ih htail st hst

/-- `TimingChain` gives adjacency: each section ends where the next starts. -/
theorem timingChain_adjacent {c f : ℕ} {sts : List SectionTiming}
    (h : TimingChain c sts f) :
    ∀ i : ℕ, i + 1 < sts.length →
      (sts.getD i default).endTime = (sts.getD (i + 1) default).startTime := by
  induction sts generalizing c with
  | nil => intro i hi; simp at hi
  | cons s rest ih =>
    obtain ⟨hs, hle, htail⟩ := h
    intro i hi
    match i with
    | 0 =>
      match rest, htail with
      | s2 :: rest2, ⟨hs2, _, _⟩ => simpa using hs2.symm
    | j + 1 =>
      simp only [List.getD_cons_succ]
      exact ih htail j (by simpa using hi)

/-- `TimingChain` determines the final clock as the last end time. -/
theorem timingChain_last {c f : ℕ} {sts : List SectionTiming}
    (h : TimingChain c sts f) :
    f = ((sts.getLast?).map SectionTiming.endTime).getD c := by
  induction sts generalizing c with
  | nil => exact h
  | cons s rest ih =>
    obtain ⟨hs, hle, htail⟩ := h
    match rest, htail with
    | [], htail => simpa [List.getLast?] using htail
    | s2 :: rest2, htail =>
      have := ih htail
      simpa [List.getLast?_cons_cons] using this

/-- First element of a nonempty chain starts at the initial clock. -/
theorem timingChain_headD {c f : ℕ} {sts : List SectionTiming}
    (h : TimingChain c sts f) (hne : 0 < sts.length) :
    (sts.getD 0 default).startTime = c := by
  match sts, h with
  | [], _ => simp at hne
  | st :: rest, ⟨hs, _, _⟩ => simpa using hs

/-- Pointwise access to a `Forall₂` relation through `getD`. -/
theorem forall₂_getD {α β : Type} {R : α → β → Prop} {l₁ : List α}
    {l₂ : List β} (h : List.Forall₂ R l₁ l₂) (i : ℕ) (hi : i < l₁.length)
    (d₁ : α) (d₂ : β) : R (l₁.getD i d₁) (l₂.getD i d₂) := by
  induction h generalizing i with
  | nil => simp at hi
  | cons hr htail ih =>
    match i with
    | 0 => simpa using hr
    | j + 1 =>
      simp only [List.getD_cons_succ]
      exact ih j (by simpa using hi)

/-- The recorded metadata (sections and final clock) does not depend on
the environment's step outcomes or the step counter. -/
theorem runSections_metadata_env (env₁ env₂ : Env) (secs : List ScriptSection)
    (i₁ i₂ cur : ℕ) :
    (runSections env₁ secs i₁ cur).sections = (runSections env₂ secs i₂ cur).sections
    ∧ (runSections env₁ secs i₁ cur).currentTime
        = (runSections env₂ secs i₂ cur).currentTime := by
  induction secs generalizing i₁ i₂ cur with
  | nil => exact ⟨rfl, rfl⟩
  | cons s rest ih =>
    simp only [runSections]
    rw [runActions_currentTime env₁ env₂ cur s.actions i₁ i₂ cur]
    obtain ⟨ihs, ihc⟩ := ih (runActions env₁ cur s.actions i₁ cur).stepIdx
      (runActions env₂ cur s.actions i₂ cur).stepIdx
      (if (runActions env₂ cur s.actions i₂ cur).currentTime < cur + s.duration * 1000
        then cur + s.duration * 1000
        else (runActions env₂ cur s.actions i₂ cur).currentTime)
    exact ⟨by rw [ihs], ihc⟩

/-!  ## Claim theorems: scheduler  -/

/-- C1: for every script (and any environment of step outcomes), the
scheduler's TimingMetadata lists one SectionTiming per script section in
script order; the first section's startTime is 0; every adjacent pair
satisfies `sections[i].endTime = sections[i+1].startTime`; every section
satisfies `startTime ≤ endTime`; and `totalDuration` equals the last
section's `endTime`, `0` when the script has no sections. -/
theorem scheduler_timing_invariants (env : Env) (script : DemoScript) :
    ((executeScript env script).1.sections.length = script.sections.length)
    ∧ (∀ i : ℕ, i < script.sections.length →
        ((executeScript env script).1.sections.getD i default).id
          = (script.sections.getD i default).id)
    ∧ (0 < (executeScript env script).1.sections.length →
        ((executeScript env script).1.sections.getD 0 default).startTime = 0)
    ∧ (∀ i : ℕ, i + 1 < (executeScript env script).1.sections.length →
        ((executeScript env script).1.sections.getD i default).endTime
          = ((executeScript env script).1.sections.getD (i + 1) default).startTime)
    ∧ (∀ st ∈ (executeScript env script).1.sections, st.startTime ≤ st.endTime)
    ∧ (executeScript env script).1.totalDuration
        = (((executeScript env script).1.sections.getLast?).map
            SectionTiming.endTime).getD 0 := by
  obtain ⟨hchain, hfits⟩ := runSections_spec env script.sections 0 0
  have hlen : (runSections env script.sections 0 0).sections.length
      = script.sections.length := (List.Forall₂.length_eq hfits).symm
  refine ⟨hlen, ?_, ?_, ?_, ?_, ?_⟩
  · intro i hi
    exact (forall₂_getD hfits i hi default default).1
  · intro hpos
    exact timingChain_headD hchain hpos
  · intro i hi
    exact timingChain_adjacent hchain i hi
  · exact timingChain_le hchain
  · exact timingChain_last hchain

/-- C1 witness: the invariants instantiated on a concrete two-section
script. -/
theorem scheduler_timing_invariants_witness :
    ((executeScript ⟨fun _ => false, fun _ => false⟩
        ⟨"Demo", "all", 8, [⟨"s1", "Intro", "Hello", 5, []⟩,
          ⟨"s2", "Next", "World", 3, []⟩]⟩).1.sections.getD 0 default).endTime
      = ((executeScript ⟨fun _ => false, fun _ => false⟩
        ⟨"Demo", "all", 8, [⟨"s1", "Intro", "Hello", 5, []⟩,
          ⟨"s2", "Next", "World", 3, []⟩]⟩).1.sections.getD 1 default).startTime := by
  have h := scheduler_timing_invariants ⟨fun _ => false, fun _ => false⟩
    ⟨"Demo", "all", 8, [⟨"s1", "Intro", "Hello", 5, []⟩,
      ⟨"s2", "Next", "World", 3, []⟩]⟩
  exact h.2.2.2.1 0 (by decide)

/-- C6: for every section with nominal duration `D` seconds, the
scheduler records `endTime - startTime ≥ D * 1000`; a section with an
empty actions list records exactly `D * 1000`. -/
theorem scheduler_nominal_floor (env : Env) (script : DemoScript) (i : ℕ)
    (hi : i < script.sections.length) :
    (script.sections.getD i default).duration * 1000
      ≤ ((executeScript env script).1.sections.getD i default).endTime
        - ((executeScript env script).1.sections.getD i default).startTime
    ∧ ((executeScript env script).1.sections.getD i default).startTime
        + (script.sections.getD i default).duration * 1000
      ≤ ((executeScript env script).1.sections.getD i default).endTime
    ∧ ((script.sections.getD i default).actions = [] →
        ((executeScript env script).1.sections.getD i default).endTime
          - ((executeScript env script).1.sections.getD i default).startTime
        = (script.sections.getD i default).duration * 1000) := by
  obtain ⟨hchain, hfits⟩ := runSections_spec env script.sections 0 0
  obtain ⟨hid, hnarr, hfloor, hexact⟩ := forall₂_getD hfits i hi default default
  have hexec : (executeScript env script).1.sections
      = (runSections env script.sections 0 0).sections := rfl
  rw [hexec]
  refine ⟨by omega, hfloor, fun h => ?_⟩
  have := hexact h
  omega

/-- C6 witness: a 5-second, action-free section records exactly 5000 ms. -/
theorem scheduler_nominal_floor_witness :
    ((executeScript ⟨fun _ => false, fun _ => false⟩
        ⟨"Demo", "all", 5, [⟨"s1", "Intro", "Hi", 5, []⟩]⟩).1.sections.getD 0
          default).endTime
      - ((executeScript ⟨fun _ => false, fun _ => false⟩
        ⟨"Demo", "all", 5, [⟨"s1", "Intro", "Hi", 5, []⟩]⟩).1.sections.getD 0
          default).startTime
      = 5 * 1000 := by
  have h := scheduler_nominal_floor ⟨fun _ => false, fun _ => false⟩
    ⟨"Demo", "all", 5, [⟨"s1", "Intro", "Hi", 5, []⟩]⟩ 0 (by decide)
  exact h.2.2 rfl

/-- C7: the recorded TimingMetadata is a deterministic function of the
script alone — any two environments of per-step interaction outcomes
(selector misses, action failures, overlay failures; all caught inside
`executeOverlay` / `executeAction`, so the scheduler is total) yield
identical metadata. -/
theorem scheduler_deterministic (script : DemoScript) (env₁ env₂ : Env) :
    (executeScript env₁ script).1 = (executeScript env₂ script).1 := by
  obtain ⟨hs, hc⟩ := runSections_metadata_env env₁ env₂ script.sections 0 0 0
  simp only [executeScript]
  rw [hs, hc]

/-- C3 counterexample: the claim reads the bookkeeping as
`lastActionEnd = sectionStart + timing + (highlightDuration ?? 1000)`,
i.e. a provided highlight duration of `0` contributes `0`.  The source
uses JS `||` (recorder.ts line 180), so an action with
`highlightDuration = 0` and `timing = 0` yields `lastActionEnd = 1000`,
not `0 + 0 + 0 = 0`. -/
theorem action_bookkeeping_claim_false :
    (actionStep ⟨fun _ => false, fun _ => false⟩ 0 0 0
        ⟨ActionType.wait, Option.none, Option.none, 0, HighlightStyle.none,
          some 0, Option.none⟩).lastActionEnd
      ≠ 0 + 0 + ((some (0 : ℕ)).getD 1000) := by decide

/-- C3 (amended): after each action the bookkeeping satisfies
`lastActionEnd = sectionStart + action.timing + d` where `d` is the
provided `highlightDuration` when it is nonzero and `1000` otherwise
(JS `||`), and `currentTime = max (currentTime, lastActionEnd)`; and
when `highlightStyle ≠ none`, a non-empty selector is present and no
`highlightDuration` is provided, exactly one Overlay Renderer call is
issued, with duration 2000 ms. -/
theorem action_bookkeeping (env : Env) (stepIdx sectionStart cur : ℕ)
    (a : ScriptAction) :
    ((actionStep env stepIdx sectionStart cur a).lastActionEnd
      = sectionStart + a.timing +
        (match a.highlightDuration with
         | some d => if d = 0 then 1000 else d
         | Option.none => 1000))
    ∧ ((actionStep env stepIdx sectionStart cur a).currentTime
      = max cur (actionStep env stepIdx sectionStart cur a).lastActionEnd)
    ∧ (a.highlightStyle ≠ HighlightStyle.none → strTruthy a.selector = true →
        a.highlightDuration = Option.none →
        ∃ c : OverlayCall,
          (actionStep env stepIdx sectionStart cur a).overlays = [c]
          ∧ c.duration = 2000) := by
  refine ⟨rfl, rfl, fun hstyle hsel hdur => ?_⟩
  have hmethod : getOverlayMethod a.highlightStyle ≠ "" := by
    cases hs : a.highlightStyle <;>
      first
      | exact absurd hs hstyle
      | decide
  have hod : overlayDuration a = 2000 := by
    simp [overlayDuration, hdur]
  have hguard : ¬(getOverlayMethod a.highlightStyle = ""
      ∨ strTruthy a.selector = false) := by
    rw [not_or]
    exact ⟨hmethod, by simp [hsel]⟩
  have h1 : (actionStep env stepIdx sectionStart cur a).overlays
      = (executeOverlay env stepIdx a).1 := by
    simp only [actionStep, if_pos (And.intro hstyle hsel)]
  rw [h1]
  unfold executeOverlay
  rw [if_neg hguard]
  cases attemptOverlay env stepIdx with
  | ok u => exact ⟨_, rfl, hod⟩
  | error e => exact ⟨_, rfl, hod⟩

/-- C3 witness: a click action with an arrow highlight, no explicit
highlight duration, timing offset 500: bookkeeping gives
`lastActionEnd = 1500`, `currentTime = 1500`, and one overlay call of
2000 ms. -/
theorem action_bookkeeping_witness :
    ((actionStep ⟨fun _ => false, fun _ => false⟩ 0 0 0
        ⟨ActionType.click, some "#btn", Option.none, 500, HighlightStyle.arrow,
          Option.none, Option.none⟩).lastActionEnd = 0 + 500 + 1000)
    ∧ (∃ c : OverlayCall,
        (actionStep ⟨fun _ => false, fun _ => false⟩ 0 0 0
          ⟨ActionType.click, some "#btn", Option.none, 500, HighlightStyle.arrow,
            Option.none, Option.none⟩).overlays = [c] ∧ c.duration = 2000) := by
  have h := action_bookkeeping ⟨fun _ => false, fun _ => false⟩ 0 0 0
    ⟨ActionType.click, some "#btn", Option.none, 500, HighlightStyle.arrow,
      Option.none, Option.none⟩
  exact ⟨h.1, h.2.2 (by decide) (by decide) rfl⟩

/-!  ## Caption segmenter lemmas  -/

/-- JS `split` never returns an empty array. -/
theorem splitOnSpace_ne_nil (cs : List Char) : splitOnSpace cs ≠ [] := by
  induction cs with
  | nil => simp [splitOnSpace]
  | cons c rest ih =>
    cases h : splitOnSpace rest with
    | nil => exact absurd h ih
    | cons w ws =>
      simp only [splitOnSpace, h]
      split <;> simp

/-- The word count of any narration string is positive. -/
theorem jsSplitSpace_length_pos (s : String) : 0 < (jsSplitSpace s).length := by
  simp only [jsSplitSpace, List.length_map]
  exact List.length_pos.mpr (splitOnSpace_ne_nil s.data)

/-- The chunking loop produces `⌈n/12⌉ = (n + 11) / 12` chunks from `n`
words. -/
theorem chunkList_length (ws : List String) :
    (chunkList ws).length = (ws.length + 11) / 12 := by
  induction ws using chunkList.induct with
  | case1 => simp [chunkList]
  | case2 w rest ih =>
    rw [chunkList]
    simp only [List.length_cons, List.length_take, List.length_drop] at ih ⊢
    omega

/-- The cue list for one section has one cue per chunk. -/
theorem sectionCues_length (idx : ℕ) (st : SectionTiming) (sec : ScriptSection) :
    (sectionCues idx st sec).length
      = ((jsSplitSpace sec.narration).length + 11) / 12 := by
  simp [sectionCues, chunkList_length]

/-- Closed form of the `j`-th cue of a section. -/
theorem sectionCues_getD (idx : ℕ) (st : SectionTiming) (sec : ScriptSection)
    (j : ℕ) (hj : j < (sectionCues idx st sec).length) :
    (sectionCues idx st sec).getD j default
      = { index := idx + j
          startTime := (st.startTime : ℚ) + (j : ℚ) *
            (((st.endTime : ℚ) - (st.startTime : ℚ)) /
              ((((jsSplitSpace sec.narration).length + 11) / 12 : ℕ) : ℚ))
          endTime := (st.startTime : ℚ) + (j : ℚ) *
            (((st.endTime : ℚ) - (st.startTime : ℚ)) /
              ((((jsSplitSpace sec.narration).length + 11) / 12 : ℕ) : ℚ))
            + ((st.endTime : ℚ) - (st.startTime : ℚ)) /
              ((((jsSplitSpace sec.narration).length + 11) / 12 : ℕ) : ℚ)
          text := ((chunkList (jsSplitSpace sec.narration)).map
              joinSpace).getD j "" } := by
  have hj' : j < ((chunkList (jsSplitSpace sec.narration)).map
      joinSpace).length := by
    simpa [sectionCues] using hj
  have hlen : ((chunkList (jsSplitSpace sec.narration)).map
      joinSpace).length
      = ((jsSplitSpace sec.narration).length + 11) / 12 := by
    simp [chunkList_length]
  simp only [sectionCues, List.getD_eq_getElem?_getD, List.getElem?_map,
    List.getElem?_range, hj', dite_eq_ite]
  simp only [hlen]
  rfl

/-- The `j`-th cue of a section carries index `idx + j`. -/
theorem sectionCues_index (idx : ℕ) (st : SectionTiming) (sec : ScriptSection)
    (j : ℕ) (hj : j < (sectionCues idx st sec).length) :
    ((sectionCues idx st sec).getD j default).index = idx + j := by
  rw [sectionCues_getD idx st sec j hj]

/-- Global cue indices are consecutive from the running index: the `j`-th
emitted cue of `subtitleCues script sts idx` has index `idx + j`,
across section boundaries, also when skipped sections emit nothing. -/
theorem subtitleCues_index (script : DemoScript) (sts : List SectionTiming)
    (idx j : ℕ) (hj : j < (subtitleCues script sts idx).length) :
    ((subtitleCues script sts idx).getD j default).index = idx + j := by
  induction sts generalizing idx j with
  | nil => simp [subtitleCues] at hj
  | cons st rest ih =>
    simp only [subtitleCues] at hj ⊢
    cases hfind : script.sections.find? (fun s => s.id == st.id) with
    | none =>
      rw [hfind] at hj
      exact ih idx j hj
    | some sec =>
      rw [hfind] at hj
      have hj' : j < (if sec.narration = "" then subtitleCues script rest idx
          else sectionCues idx st sec
            ++ subtitleCues script rest
                (idx + (sectionCues idx st sec).length)).length := hj
      show ((if sec.narration = "" then subtitleCues script rest idx
          else sectionCues idx st sec
            ++ subtitleCues script rest
                (idx + (sectionCues idx st sec).length)).getD j default).index
        = idx + j
      clear hj
      by_cases hn : sec.narration = ""
      · rw [if_pos hn] at hj' ⊢
        exact ih idx j hj'
      · rw [if_neg hn] at hj' ⊢
        by_cases hjlt : j < (sectionCues idx st sec).length
        · rw [List.getD_eq_getElem?_getD, List.getElem?_append_left hjlt,
            ← List.getD_eq_getElem?_getD]
          exact sectionCues_index idx st sec j hjlt
        · push_neg at hjlt
          rw [List.getD_eq_getElem?_getD, List.getElem?_append_right hjlt,
            ← List.getD_eq_getElem?_getD]
          have hj2 : j - (sectionCues idx st sec).length
              < (subtitleCues script rest (idx + (sectionCues idx st sec).length)).length := by
            rw [List.length_append] at hj'
            omega
          have := ih (idx + (sectionCues idx st sec).length)
            (j - (sectionCues idx st sec).length) hj2
          rw [this]
          omega

/-- C2: cue indices in the full subtitle output are global, start at 1
and increase by exactly 1 from one emitted cue to the next; and for any
section timing window with `startTime ≤ endTime` whose matching script
section has non-empty narration of `N` words, the segmenter emits
exactly `⌈N/12⌉` cues for it (appended at the running global index),
each cue's window lies inside the section window, consecutive cue
windows abut, the first starts at `startTime`, the last ends at
`endTime`, and every cue window has length
`(endTime - startTime) / ⌈N/12⌉`. -/
theorem caption_segmenter_correct (script : DemoScript) (timing : TimingMetadata) :
    (∀ j : ℕ, j < (generateSubtitles script timing).length →
      ((generateSubtitles script timing).getD j default).index = 1 + j)
    ∧ (∀ (sts : List SectionTiming) (st : SectionTiming) (idx : ℕ)
        (sec : ScriptSection),
        script.sections.find? (fun s => s.id == st.id) = some sec →
        sec.narration ≠ "" →
        subtitleCues script (st :: sts) idx
          = sectionCues idx st sec
            ++ subtitleCues script sts (idx + (sectionCues idx st sec).length))
    ∧ (∀ (idx : ℕ) (st : SectionTiming) (sec : ScriptSection),
        sec.narration ≠ "" → st.startTime ≤ st.endTime →
        (sectionCues idx st sec).length
            = ((jsSplitSpace sec.narration).length + 11) / 12
        ∧ 0 < (sectionCues idx st sec).length
        ∧ ((sectionCues idx st sec).getD 0 default).startTime = (st.startTime : ℚ)
        ∧ ((sectionCues idx st sec).getD
              ((sectionCues idx st sec).length - 1) default).endTime
            = (st.endTime : ℚ)
        ∧ (∀ j : ℕ, j < (sectionCues idx st sec).length →
            ((sectionCues idx st sec).getD j default).index = idx + j
            ∧ ((sectionCues idx st sec).getD j default).endTime
                - ((sectionCues idx st sec).getD j default).startTime
              = ((st.endTime : ℚ) - (st.startTime : ℚ))
                / ((((jsSplitSpace sec.narration).length + 11) / 12 : ℕ) : ℚ)
            ∧ (st.startTime : ℚ)
                ≤ ((sectionCues idx st sec).getD j default).startTime
            ∧ ((sectionCues idx st sec).getD j default).endTime ≤ (st.endTime : ℚ)
            ∧ (j + 1 < (sectionCues idx st sec).length →
                ((sectionCues idx st sec).getD (j + 1) default).startTime
                  = ((sectionCues idx st sec).getD j default).endTime))) := by
  refine ⟨fun j hj => subtitleCues_index script timing.sections 1 j hj, ?_, ?_⟩
  · intro sts st idx sec hfind hn
    simp only [subtitleCues, hfind, if_neg hn]
  · intro idx st sec hn hse
    have hN : 0 < (jsSplitSpace sec.narration).length := jsSplitSpace_length_pos _
    have hk : (sectionCues idx st sec).length
        = ((jsSplitSpace sec.narration).length + 11) / 12 := sectionCues_length _ _ _
    have hkpos : 0 < (sectionCues idx st sec).length := by omega
    set k : ℕ := ((jsSplitSpace sec.narration).length + 11) / 12 with hkdef
    have hkQ : ((k : ℚ)) ≠ 0 := by
      have : 0 < k := by omega
      exact_mod_cast Nat.pos_iff_ne_zero.mp this
    have hdnn : 0 ≤ ((st.endTime : ℚ) - (st.startTime : ℚ)) / (k : ℚ) := by
      apply div_nonneg
      · have : (st.startTime : ℚ) ≤ (st.endTime : ℚ) := by exact_mod_cast hse
        linarith
      · positivity
    set d : ℚ := ((st.endTime : ℚ) - (st.startTime : ℚ)) / (k : ℚ) with hddef
    have hkd : (k : ℚ) * d = (st.endTime : ℚ) - (st.startTime : ℚ) := by
      rw [hddef, mul_div_cancel₀ _ hkQ]
    refine ⟨hk, hkpos, ?_, ?_, ?_⟩
    · rw [sectionCues_getD idx st sec 0 hkpos]
      push_cast
      ring
    · have hlast : (sectionCues idx st sec).length - 1
          < (sectionCues idx st sec).length := by omega
      rw [sectionCues_getD idx st sec _ hlast, hk]
      show (st.startTime : ℚ) + ((k - 1 : ℕ) : ℚ) * d + d = (st.endTime : ℚ)
      have hk1 : ((k - 1 : ℕ) : ℚ) = (k : ℚ) - 1 := by
        have : 1 ≤ k := by omega
        push_cast [this]
        ring
      rw [hk1]
      have : ((k : ℚ) - 1) * d + d = (k : ℚ) * d := by ring
      rw [add_assoc, this, hkd]
      ring
    · intro j hj
      have hjk : j < k := by omega
      rw [sectionCues_getD idx st sec j hj]
      refine ⟨rfl, by ring, ?_, ?_, ?_⟩
      · have : 0 ≤ (j : ℚ) * d := mul_nonneg (by positivity) hdnn
        simp only
        linarith
      · have hj1 : (j : ℚ) + 1 ≤ (k : ℚ) := by exact_mod_cast hjk
        have hmul : ((j : ℚ) + 1) * d ≤ (k : ℚ) * d :=
          mul_le_mul_of_nonneg_right hj1 hdnn
        rw [hkd] at hmul
        simp only
        linarith
      · intro hj2
        rw [sectionCues_getD idx st sec (j + 1) hj2]
        push_cast
        ring

/-- C2 witness: the six-word example section (`⌈6/12⌉ = 1`) yields
exactly one cue. -/
theorem caption_segmenter_correct_witness :
    (sectionCues 1 ⟨"s1", 0, 5000, "Hello world this is a test"⟩
      ⟨"s1", "Intro", "Hello world this is a test", 5, []⟩).length = 1 := by
  have h := (caption_segmenter_correct
      ⟨"Demo", "all", 5, [⟨"s1", "Intro", "Hello world this is a test", 5, []⟩]⟩
      ⟨[⟨"s1", 0, 5000, "Hello world this is a test"⟩], 5000⟩).2.2
    1 ⟨"s1", 0, 5000, "Hello world this is a test"⟩
    ⟨"s1", "Intro", "Hello world this is a test", 5, []⟩
    (by decide) (by decide)
  rw [h.1]
  rfl

/-!  ## Audio alignment claims  -/

/-- C4: with exactly one audio segment, `combineAudio` returns a direct
byte-for-byte copy of that segment's clip (`fs.copyFileSync`), with no
`adelay` positioning at the segment's section start time as on the
two-or-more path, and without consulting the timing metadata: any two
metadata inputs give the same result. -/
theorem single_segment_copy (env : MixEnv) (seg : AudioSegment)
    (timing timing' : TimingMetadata) (h : env.copyFails = false) :
    combineAudio env [seg] timing = Except.ok (AudioTrack.copied seg)
    ∧ combineAudio env [seg] timing = combineAudio env [seg] timing' := by
  constructor <;> simp [combineAudio, h]

/-- C4 witness: a lone segment is copied unchanged even though its
section's timing entry starts at 7000 ms. -/
theorem single_segment_copy_witness :
    combineAudio ⟨false, false, false⟩ [⟨"a", "clip.mp3", 1200⟩]
        ⟨[⟨"a", 7000, 9000, "x"⟩], 9000⟩
      = Except.ok (AudioTrack.copied ⟨"a", "clip.mp3", 1200⟩) :=
  (single_segment_copy ⟨false, false, false⟩ ⟨"a", "clip.mp3", 1200⟩
    ⟨[⟨"a", 7000, 9000, "x"⟩], 9000⟩ ⟨[], 0⟩ rfl).1

/-- C5 counterexample: `combineAudio` can propagate an error to its
caller — with zero segments it awaits `createSilentAudio` unguarded
(compositor.ts line 200), so an encoder failure there rejects the
returned promise. -/
theorem combine_audio_claim_false :
    combineAudio ⟨false, true, false⟩ [] ⟨[], 0⟩
      = Except.error "silent synthesis failed" := rfl

/-- The mix's `duration=longest` output never has negative duration. -/
theorem foldr_max_nonneg (l : List ℚ) : 0 ≤ l.foldr max 0 := by
  induction l with
  | nil => exact le_refl 0
  | cons x xs ih => exact le_trans ih (le_max_right x _)

/-- C5 (amended): provided the external silent-track synthesis and the
single-segment file copy succeed, `combineAudio` never propagates an
error: zero segments yield the silent track of duration
`timing.totalDuration`; with two or more segments, segments whose
`sectionId` matches no `SectionTiming` are dropped rather than failing;
when no segment survives the filter, or the mixing step fails, it falls
back to the same silent track; and for every input (of non-negative
clip durations) the returned track's duration is well-defined and
non-negative. -/
theorem combine_audio_total (env : MixEnv) (segments : List AudioSegment)
    (timing : TimingMetadata) (hs : env.silentFails = false)
    (hc : env.copyFails = false)
    (hd : ∀ seg ∈ segments, 0 ≤ seg.duration) :
    (∃ t : AudioTrack, combineAudio env segments timing = Except.ok t
      ∧ 0 ≤ trackDuration t)
    ∧ (segments = [] →
        combineAudio env segments timing
          = Except.ok (AudioTrack.silent timing.totalDuration))
    ∧ (∀ s1 s2 rest, segments = s1 :: s2 :: rest →
        ((mixEntries segments timing = [] ∨ env.mixFails = true) →
          combineAudio env segments timing
            = Except.ok (AudioTrack.silent timing.totalDuration))
        ∧ (mixEntries segments timing ≠ [] → env.mixFails = false →
          combineAudio env segments timing
            = Except.ok (AudioTrack.mixed (mixEntries segments timing)))) := by
  refine ⟨?_, ?_, ?_⟩
  · match segments, hd with
    | [], _ =>
      refine ⟨AudioTrack.silent timing.totalDuration, ?_, ?_⟩
      · simp [combineAudio, createSilentAudio, hs]
      · simp [trackDuration]
    | [s1], hd =>
      refine ⟨AudioTrack.copied s1, ?_, ?_⟩
      · simp [combineAudio, hc]
      · simpa [trackDuration] using hd s1 (by simp)
    | s1 :: s2 :: rest, hd =>
      by_cases hempty : mixEntries (s1 :: s2 :: rest) timing = []
      · refine ⟨AudioTrack.silent timing.totalDuration, ?_, ?_⟩
        · simp [combineAudio, createSilentAudio, hs, hempty]
        · simp [trackDuration]
      · by_cases hm : env.mixFails
        · refine ⟨AudioTrack.silent timing.totalDuration, ?_, ?_⟩
          · simp [combineAudio, createSilentAudio, hs, hm,
              List.isEmpty_eq_false.mpr hempty]
          · simp [trackDuration]
        · refine ⟨AudioTrack.mixed (mixEntries (s1 :: s2 :: rest) timing), ?_, ?_⟩
          · simp [combineAudio, hm, List.isEmpty_eq_false.mpr hempty]
          · exact foldr_max_nonneg _
  · intro h
    subst h
    simp [combineAudio, createSilentAudio, hs]
  · intro s1 s2 rest h
    subst h
    constructor
    · intro hor
      rcases hor with hempty | hm
      · simp [combineAudio, createSilentAudio, hs, hempty]
      · by_cases hempty : mixEntries (s1 :: s2 :: rest) timing = []
        · simp [combineAudio, createSilentAudio, hs, hempty]
        · simp [combineAudio, createSilentAudio, hs, hm,
            List.isEmpty_eq_false.mpr hempty]
    · intro hne hm
      simp [combineAudio, hm, List.isEmpty_eq_false.mpr hne]

/-- C5 witness: two segments, one matching no timing entry: the
unmatched one is dropped and the rest are mixed at their section
offsets. -/
theorem combine_audio_total_witness :
    combineAudio ⟨false, false, false⟩
        [⟨"a", "a.mp3", 1000⟩, ⟨"ghost", "g.mp3", 500⟩]
        ⟨[⟨"a", 0, 5000, ""⟩], 5000⟩
      = Except.ok (AudioTrack.mixed [(⟨"a", "a.mp3", 1000⟩, 0)]) := by
  have h := (combine_audio_total ⟨false, false, false⟩
      [⟨"a", "a.mp3", 1000⟩, ⟨"ghost", "g.mp3", 500⟩]
      ⟨[⟨"a", 0, 5000, ""⟩], 5000⟩ rfl rfl
      (by intro seg hseg; fin_cases hseg <;> norm_num)).2.2
    ⟨"a", "a.mp3", 1000⟩ ⟨"ghost", "g.mp3", 500⟩ [] rfl
  have h2 := h.2 (by decide) rfl
  rw [h2]
  rfl

/-!  ## Stream merger claim  -/

/-- C8: the Stream Merger has no degraded fallback: an encoder failure
propagates as an error to the caller, and on success the output's
duration is the shorter of the two input streams (the `-shortest`
output option). -/
theorem stream_merger_behavior (env : MergeEnv) (raw audio : VideoStream) :
    compositeVideo env raw audio
      = (if env.mergeFails = true then Except.error "Composite error"
         else Except.ok ⟨"final.mp4", min raw.duration audio.duration⟩) := by
  have hmem : "-shortest" ∈ compositeOutputOptions := by decide
  by_cases h : env.mergeFails <;>
    simp [compositeVideo, encodeMerged, h, if_pos hmem]

/-!  ## Narration emptiness divergence (C9)  -/

/-- Every character of every piece of `splitOnSpace cs` occurs in `cs`. -/
theorem splitOnSpace_chars (cs : List Char) :
    ∀ w ∈ splitOnSpace cs, ∀ c ∈ w, c ∈ cs := by
  induction cs with
  | nil =>
    intro w hw c hc
    simp only [splitOnSpace, List.mem_singleton] at hw
    subst hw
    cases hc
  | cons c0 rest ih =>
    intro w hw c hc
    rcases hsplit : splitOnSpace rest with _ | ⟨w0, ws0⟩
    · exact absurd hsplit (splitOnSpace_ne_nil rest)
    · simp only [splitOnSpace, hsplit] at hw
      by_cases hc0 : c0 = ' '
      · rw [if_pos hc0] at hw
        rcases List.mem_cons.mp hw with hw | hw
        · subst hw; cases hc
        · exact List.mem_cons_of_mem c0 (ih w (hsplit ▸ hw) c hc)
      · rw [if_neg hc0] at hw
        rcases List.mem_cons.mp hw with hw | hw
        · subst hw
          rcases List.mem_cons.mp hc with hc | hc
          · subst hc; exact List.mem_cons_self _ _
          · exact List.mem_cons_of_mem c0
              (ih w0 (hsplit ▸ List.mem_cons_self w0 ws0) c hc)
        · exact List.mem_cons_of_mem c0
            (ih w (hsplit ▸ List.mem_cons_of_mem w0 hw) c hc)

/-- Every character of `joinSpace l` is a space or a character of a
member of `l`. -/
theorem joinSpace_chars (l : List String) :
    ∀ c ∈ (joinSpace l).data, c = ' ' ∨ ∃ w ∈ l, c ∈ w.data := by
  induction l with
  | nil =>
    intro c hc
    have hnil : (joinSpace []).data = [] := rfl
    rw [hnil] at hc
    cases hc
  | cons w rest ih =>
    cases rest with
    | nil =>
      intro c hc
      exact Or.inr ⟨w, List.mem_cons_self w [], hc⟩
    | cons v rest2 =>
      intro c hc
      have hdata : (joinSpace (w :: v :: rest2)).data
          = (w.data ++ (" " : String).data) ++ (joinSpace (v :: rest2)).data := by
        show ((w ++ " ") ++ joinSpace (v :: rest2)).data = _
        rw [String.data_append, String.data_append]
      rw [hdata] at hc
      rcases List.mem_append.mp hc with hc | hc
      · rcases List.mem_append.mp hc with hc | hc
        · exact Or.inr ⟨w, List.mem_cons_self w _, hc⟩
        · left
          have : ((" " : String).data) = [' '] := rfl
          rw [this] at hc
          simpa using hc
      · rcases ih c hc with h | ⟨w', hw', hcw⟩
        · exact Or.inl h
        · exact Or.inr ⟨w', List.mem_cons_of_mem w hw', hcw⟩

/-- Chunk members come from the chunked list. -/
theorem chunkList_mem (ws : List String) :
    ∀ chunk ∈ chunkList ws, ∀ x ∈ chunk, x ∈ ws := by
  induction ws using chunkList.induct with
  | case1 =>
    intro chunk hc
    simp [chunkList] at hc
  | case2 w rest ih =>
    intro chunk hc x hx
    rw [chunkList] at hc
    rcases List.mem_cons.mp hc with hc | hc
    · subst hc
      exact List.take_subset _ _ hx
    · exact List.drop_subset _ _ (ih chunk hc x hx)

/-- `jsTrim s = ""` exactly when every character of `s` is whitespace. -/
theorem jsTrim_eq_empty_iff (s : String) :
    jsTrim s = "" ↔ ∀ c ∈ s.data, c.isWhitespace = true := by
  constructor
  · intro h c hc
    have hdata : ((s.data.dropWhile Char.isWhitespace).reverse.dropWhile
        Char.isWhitespace).reverse = [] := String.ext_iff.mp h
    rw [List.reverse_eq_nil_iff, List.dropWhile_eq_nil_iff] at hdata
    have hsplit2 : c ∈ s.data.takeWhile Char.isWhitespace
        ++ s.data.dropWhile Char.isWhitespace := by
      rw [List.takeWhile_append_dropWhile]
      exact hc
    rcases List.mem_append.mp hsplit2 with h1 | h2
    · exact List.mem_takeWhile_imp h1
    · exact hdata c (List.mem_reverse.mpr h2)
  · intro h
    have h1 : s.data.dropWhile Char.isWhitespace = [] :=
      List.dropWhile_eq_nil_iff.mpr h
    show String.mk (((s.data.dropWhile Char.isWhitespace).reverse.dropWhile
        Char.isWhitespace).reverse) = ""
    rw [h1]
    rfl

/-- Every chunk text of a whitespace-only narration trims to empty. -/
theorem chunk_text_whitespace (s : String)
    (hws : ∀ c ∈ s.data, c.isWhitespace = true) (t : String)
    (ht : t ∈ (chunkList (jsSplitSpace s)).map joinSpace) :
    jsTrim t = "" := by
  rcases List.mem_map.mp ht with ⟨chunk, hchunk, rfl⟩
  rw [jsTrim_eq_empty_iff]
  intro c hc
  rcases joinSpace_chars chunk c hc with rfl | ⟨w, hw, hcw⟩
  · decide
  · have hwmem : w ∈ jsSplitSpace s := chunkList_mem _ chunk hchunk w hw
    rcases List.mem_map.mp hwmem with ⟨piece, hpiece, rfl⟩
    exact hws c (splitOnSpace_chars s.data piece hpiece c hcw)

/-- C9: the two narration consumers judge emptiness differently: a
non-empty, whitespace-only narration is skipped by narration generation
(`trim` is empty), so the section gets no audio segment, while the
caption segmenter (which skips only the empty string) still emits at
least one cue for it — every such cue's text itself whitespace-only. -/
theorem narration_vs_caption_emptiness (env : SynthEnv) (sec : ScriptSection)
    (idx : ℕ) (st : SectionTiming)
    (_hne : sec.narration ≠ "") (hws : jsTrim sec.narration = "") :
    narrationSegment env sec = Option.none
    ∧ 0 < (sectionCues idx st sec).length
    ∧ ∀ cue ∈ sectionCues idx st sec, jsTrim cue.text = "" := by
  refine ⟨?_, ?_, ?_⟩
  · simp [narrationSegment, hws]
  · have h1 := jsSplitSpace_length_pos sec.narration
    have h2 := sectionCues_length idx st sec
    omega
  · intro cue hcue
    simp only [sectionCues] at hcue
    rcases List.mem_map.mp hcue with ⟨i, hi, rfl⟩
    have hilt : i < ((chunkList (jsSplitSpace sec.narration)).map joinSpace).length :=
      List.mem_range.mp hi
    show jsTrim (((chunkList (jsSplitSpace sec.narration)).map joinSpace).getD i "") = ""
    rw [List.getD_eq_getElem _ _ hilt]
    exact chunk_text_whitespace sec.narration
      ((jsTrim_eq_empty_iff sec.narration).mp hws) _ (List.getElem_mem hilt)

/-- C9 witness: a single-space narration produces no audio segment but
does produce a cue. -/
theorem narration_vs_caption_emptiness_witness :
    narrationSegment ⟨fun _ => false, fun _ => ProbeResult.fail⟩
        ⟨"w", "W", " ", 3, []⟩ = Option.none
    ∧ 0 < (sectionCues 1 ⟨"w", 0, 3000, " "⟩ ⟨"w", "W", " ", 3, []⟩).length := by
  have h := narration_vs_caption_emptiness
    ⟨fun _ => false, fun _ => ProbeResult.fail⟩ ⟨"w", "W", " ", 3, []⟩
    1 ⟨"w", 0, 3000, " "⟩ (by decide) (by decide)
  exact ⟨h.1, h.2.1⟩

/-!  ## Audio-duration probe claim (C10)  -/

/-- C10: the 5000 ms default applies not only when the probe fails but
also when a successful probe reports an absent or zero duration; and for
any probe result whose reported duration is non-negative (as for real
media), the returned duration is strictly positive — never 0. -/
theorem audio_duration_positive (r : ProbeResult)
    (h : ∀ x : ℚ, r = ProbeResult.ok (some x) → 0 ≤ x) :
    getAudioDuration ProbeResult.fail = 5000
    ∧ getAudioDuration (ProbeResult.ok Option.none) = 5000
    ∧ getAudioDuration (ProbeResult.ok (some 0)) = 5000
    ∧ 0 < getAudioDuration r := by
  refine ⟨rfl, by norm_num [getAudioDuration], by norm_num [getAudioDuration], ?_⟩
  match r with
  | ProbeResult.fail => norm_num [getAudioDuration]
  | ProbeResult.ok Option.none => norm_num [getAudioDuration]
  | ProbeResult.ok (some x) =>
    have hx := h x rfl
    by_cases hx0 : x = 0
    · subst hx0
      norm_num [getAudioDuration]
    · have hpos : 0 < x := lt_of_le_of_ne hx (Ne.symm hx0)
      simp only [getAudioDuration, if_neg hx0]
      positivity

/-- C10 witness: a probe reporting 2.5 seconds yields a positive
duration. -/
theorem audio_duration_positive_witness :
    0 < getAudioDuration (ProbeResult.ok (some (5 / 2 : ℚ))) := by
  have h := audio_duration_positive (ProbeResult.ok (some (5 / 2 : ℚ)))
    (by
      intro x hx
      injection hx with h1
      injection h1 with h2
      rw [← h2]
      norm_num)
  exact h.2.2.2

end AppDemo
